import Mathlib

/-!
Shallow embedding of the attendance-log pipeline
(`src/process_attendance.py` and its variants
`process_attendance1.py` … `process_attendance4.py`).

Machine conventions used throughout:
* Python `datetime` values are second-resolution and modelled by `PyDatetime`
  (an instant in Unix epoch seconds plus the UTC offset of its representation).
* Python `int` is `Int`; fallible library calls return `Option`.
* Python `dict` / `defaultdict(list)` are modelled as insertion-ordered
  association lists, matching CPython's documented key order.
-/

namespace Attendance

/-- A timezone-aware Python `datetime` at second resolution.  `utc` is the
instant as Unix epoch seconds; `offset` is the UTC offset (in seconds) of the
local representation.  Aware datetimes compare, subtract and hash by instant,
i.e. by `utc`. -/
structure PyDatetime where
  utc : Int
  offset : Int
deriving DecidableEq, Repr

/-- Local wall-clock value of the datetime, as seconds relative to the epoch
of the local calendar. -/
def PyDatetime.localSeconds (d : PyDatetime) : Int := d.utc + d.offset

/-- `d.time()` as seconds since local midnight (Python `%` is floor-mod). -/
def PyDatetime.timeOfDay (d : PyDatetime) : Int := Int.fmod d.localSeconds 86400

/-- `d.date()` as the local calendar day, counted in days since 1970-01-01
(Python floor division). -/
def PyDatetime.dateOf (d : PyDatetime) : Int := Int.fdiv d.localSeconds 86400

/-- `LATE_ENTRY_LIMIT = time(9, 30)` as seconds since midnight. -/
def LATE_ENTRY_LIMIT : Int := 34200

/-- `EARLY_EXIT_LIMIT = time(17, 0)` as seconds since midnight. -/
def EARLY_EXIT_LIMIT : Int := 61200

/-- The whitespace characters of these inputs (Python additionally treats
`\x0b`, `\x0c` and Unicode spaces as whitespace; none occur here). -/
def isSpaceChar (c : Char) : Bool :=
  c = ' ' || c = '\t' || c = '\n' || c = '\r'

/-- Tokenizer loop behind `pySplitWs`: `acc` is the current token, reversed. -/
def splitWsAux : List Char → List Char → List String
  | [], acc => if acc.isEmpty then [] else [String.mk acc.reverse]
  | c :: cs, acc =>
      if isSpaceChar c then
        if acc.isEmpty then splitWsAux cs []
        else String.mk acc.reverse :: splitWsAux cs []
      else splitWsAux cs (c :: acc)

/-- Python `str.split()` with no argument: split on runs of whitespace,
producing no empty tokens. -/
def pySplitWs (s : String) : List String :=
  splitWsAux s.toList []

/-- Python `str.isdigit` on one character: true for characters with Unicode
property Numeric_Type = Decimal or Digit.  Modelled exactly on the ASCII
decimal digits plus the superscript digits U+00B9, U+00B2, U+00B3 (the only
non-decimal digit characters appearing in this development); Python accepts
further Unicode digit characters, none of which occur here. -/
def pyCharIsDigit (c : Char) : Bool :=
  c.isDigit || c = '¹' || c = '²' || c = '³'

/-- Python `str.isdigit`: nonempty and every character a digit character. -/
def pyStrIsDigit (s : String) : Bool :=
  s ≠ "" && s.toList.all pyCharIsDigit

/-- Python `int(s)` restricted to strings this program can pass it (strings
with `s.isdigit()` true): it succeeds exactly on nonempty strings of decimal
digit characters — here the ASCII digits — returning the base-10 value.
Superscript digit characters satisfy `isdigit` but make `int` raise
`ValueError`.  (Signs, inner whitespace and underscores cannot occur in an
`isdigit`-true string, so they are not modelled.) -/
def pyInt? (s : String) : Option Int :=
  if s ≠ "" && s.toList.all Char.isDigit then
    some (s.toList.foldl (fun acc c => 10 * acc + ((c.toNat : Int) - 48)) 0)
  else none

/-- Smallest local-clock value representable by a Python `datetime`
(0001-01-01T00:00:00, as seconds relative to the Unix epoch). -/
def minDatetimeSeconds : Int := -62135596800

/-- Largest local-clock value representable by a Python `datetime`
(9999-12-31T23:59:59, as seconds relative to the Unix epoch). -/
def maxDatetimeSeconds : Int := 253402300799

/-- `datetime.fromtimestamp(ts, tz)` for a zone currently at offset `off`
seconds: the aware datetime for that instant, or `none` (Python: an
exception) when the local time falls outside the representable range. -/
def pyFromTimestamp (ts off : Int) : Option PyDatetime :=
  if minDatetimeSeconds ≤ ts + off ∧ ts + off ≤ maxDatetimeSeconds then
    some ⟨ts, off⟩
  else none

/-- UTC offset in seconds of the IANA zone `Asia/Dhaka` as resolved by
`pytz.timezone('Asia/Dhaka')` (`DHAKA_TZ` in `process_attendance.py`), for
nonnegative Unix timestamps.  Modelled from the tz database: +06:00 except
during the 2009 Bangladeshi daylight-saving experiment — from
2009-06-19 23:00 +06 (epoch 1245430800) until 2009-12-31 24:00 +07
(epoch 1262278800) the offset was +07:00.  Pre-1970 history is omitted, being
irrelevant to nonnegative timestamps; for negative timestamps down to the
1951 standardisation the offset is likewise +06:00. -/
def dhakaOffset (ts : Int) : Int :=
  if 1245430800 ≤ ts ∧ ts < 1262278800 then 25200 else 21600

/-- `convert_to_bst` of `process_attendance.py`:
`datetime.fromtimestamp(ts, tz=DHAKA_TZ)` — a named-zone lookup. -/
def convert_to_bst (ts : Int) : Option PyDatetime :=
  pyFromTimestamp ts (dhakaOffset ts)

/-- `convert_to_bdt` of `process_attendance1.py` / `process_attendance2.py` /
`process_attendance3.py`: `datetime.utcfromtimestamp(ts) + BDT_OFFSET`, a
naive datetime holding the wall clock at fixed offset +06:00; recorded here
with its (implicit) offset 21600. -/
def convert_to_bdt (ts : Int) : Option PyDatetime :=
  pyFromTimestamp ts 21600

/-- `convert_to_bst` of `process_attendance4.py`:
`datetime.fromtimestamp(ts, tz=timezone.utc).astimezone(BDT)` with
`BDT = timezone(timedelta(hours=6))` — a fixed offset; the intermediate UTC
value must itself be representable. -/
def convert_to_bst_v4 (ts : Int) : Option PyDatetime :=
  (pyFromTimestamp ts 0).bind (fun _ => pyFromTimestamp ts 21600)

/-- Python `line.strip()`: drop leading and trailing whitespace. -/
def pyStrip (s : String) : String :=
  String.mk (((s.toList.dropWhile isSpaceChar).reverse.dropWhile isSpaceChar).reverse)

/-- Error message of `validate_row`'s first branch
(`f"Line {line_number}: Missing columns → {line.strip()}"`). -/
def missingColumnsMsg (line_number : Nat) (line : String) : String :=
  "Line " ++ toString line_number ++ ": Missing columns → " ++ pyStrip line

/-- Error message of `validate_row`'s second branch
(`f"Line {line_number}: Too many columns → {line.strip()}"`). -/
def tooManyColumnsMsg (line_number : Nat) (line : String) : String :=
  "Line " ++ toString line_number ++ ": Too many columns → " ++ pyStrip line

/-- Error message of `parse_timestamp`'s failure branch
(`f"Line {line_number}: Missing or invalid timestamp: {line.strip()}"`). -/
def missingTimestampMsg (line_number : Nat) (line : String) : String :=
  "Line " ++ toString line_number ++ ": Missing or invalid timestamp: " ++ pyStrip line

/-- Text of the `ValueError` raised by `int` on a non-decimal literal. -/
def intValueErrorText (ts_str : String) : String :=
  "invalid literal for int() with base 10: '" ++ ts_str ++ "'"

/-- Text of the exception raised by `datetime.fromtimestamp` on an
out-of-range timestamp.  The exact CPython text varies with the platform; no
claim depends on it, only on which operation raised. -/
def timestampRangeErrorText : String :=
  "timestamp out of range"

/-- Error message of the `except` branch of `read_and_parse_data`
(`f"Line {line_no}: Invalid timestamp '{ts_str}' → {e}"`), with `excText`
the text of the caught exception. -/
def invalidTimestampMsg (line_number : Nat) (ts_str excText : String) : String :=
  "Line " ++ toString line_number ++ ": Invalid timestamp '" ++ ts_str ++ "' → " ++ excText

/-- `validate_row` of `process_attendance.py` (also `process_attendance4.py`):
fewer than 4 tokens → missing columns; more than 6 → too many. -/
def validate_row (parts : List String) (line_number : Nat) (line : String) : Option String :=
  if parts.length < 4 then some (missingColumnsMsg line_number line)
  else if parts.length > 6 then some (tooManyColumnsMsg line_number line)
  else none

/-- The inline row validation of `process_attendance1.py` (lines 36-41),
identical to `validate_row` of `process_attendance2.py` /
`process_attendance3.py`: the missing-columns threshold is 5, not 4. -/
def validate_row_v1 (parts : List String) (line_number : Nat) (line : String) : Option String :=
  if parts.length < 5 then some (missingColumnsMsg line_number line)
  else if parts.length > 6 then some (tooManyColumnsMsg line_number line)
  else none

/-- Index of the first token with `p.isdigit() and len(p) > 6`
(`next((i for i, p in enumerate(parts) if p.isdigit() and len(p) > 6), None)`). -/
def findTimestampIdx : List String → Option Nat
  | [] => none
  | p :: rest =>
      if pyStrIsDigit p && p.length > 6 then some 0
      else (findTimestampIdx rest).map (· + 1)

/-- `parse_timestamp` of `process_attendance.py`: locate the timestamp token
by the digit heuristic; on success return it together with the device (the
remaining tokens joined by single spaces), on failure an error message.
Mirrors the Python triple `(ts_str, device, error)` with `None` ↦ `none`. -/
def parse_timestamp (parts : List String) (line_number : Nat) (line : String) :
    Option String × Option String × Option String :=
  match findTimestampIdx parts with
  | none => (none, none, some (missingTimestampMsg line_number line))
  | some i => (some (parts.getD i ""), some (String.intercalate " " (parts.drop (i + 1))), none)

/-- A parsed punch row (`data.append({...})` in `read_and_parse_data` of
`process_attendance.py`). -/
structure PunchRecord where
  emp_code : String
  first_name : String
  last_name : String
  datetime : PyDatetime
  device : String
  timestamp : Int
deriving DecidableEq, Repr

/-- The loop body of `read_and_parse_data` in `process_attendance.py` on one
line: either one `PunchRecord` (`Sum.inl`) or one error string (`Sum.inr`).
`parts[:3]` unpacking is modelled with `getD`, safe because `validate_row`
has already ensured at least 4 tokens on every path reaching it. -/
def parseLine (line_no : Nat) (line : String) : Sum PunchRecord String :=
  let parts := pySplitWs (pyStrip line)
  match validate_row parts line_no line with
  | some e => .inr e
  | none =>
    let emp_code := parts.getD 0 ""
    let first_name := parts.getD 1 ""
    let last_name := parts.getD 2 ""
    match parse_timestamp parts line_no line with
    | (_, _, some e) => .inr e
    | (ts_str?, device?, none) =>
      let ts_str := ts_str?.getD ""
      let device := device?.getD ""
      match pyInt? ts_str with
      | none => .inr (invalidTimestampMsg line_no ts_str (intValueErrorText ts_str))
      | some ts =>
        match pyFromTimestamp ts (dhakaOffset ts) with
        | none => .inr (invalidTimestampMsg line_no ts_str timestampRangeErrorText)
        | some dt =>
            .inl { emp_code := emp_code, first_name := first_name,
                   last_name := last_name, datetime := dt,
                   device := device, timestamp := ts }

/-- One iteration of the `for line_no, line in enumerate(f, start=1)` loop:
append the parse result to the valid-data list or to the error list. -/
def processLine (acc : List PunchRecord × List String) (line_no : Nat) (line : String) :
    List PunchRecord × List String :=
  match parseLine line_no line with
  | .inl r => (acc.1 ++ [r], acc.2)
  | .inr e => (acc.1, acc.2 ++ [e])

/-- The top-level diagnostic appended when the input file does not exist
(`errors.append(f"File not found: {csv_file_path}")`). -/
def fileNotFoundMsg (path : String) : String :=
  "File not found: " ++ path

/-- `read_and_parse_data` of `process_attendance.py`.  `fileExists` is the
result of `os.path.exists(csv_file_path)`; `lines` are the file's lines. -/
def read_and_parse_data (fileExists : Bool) (path : String) (lines : List String) :
    List PunchRecord × List String :=
  if !fileExists then ([], [fileNotFoundMsg path])
  else
    (lines.enumFrom 1).foldl (fun acc nl => processLine acc nl.1 nl.2) ([], [])

section PyDict

variable {κ : Type} {ν : Type} [DecidableEq κ]

/-- One CPython dict assignment `d[k] = v`: if the key is present its value is
updated in place (the key keeps its original position), otherwise the pair is
appended, matching CPython's insertion-ordered dictionaries. -/
def dictInsert : List (κ × ν) → κ → ν → List (κ × ν)
  | [], k, v => [(k, v)]
  | (k', v') :: rest, k, v =>
      if k' = k then (k', v) :: rest else (k', v') :: dictInsert rest k v

/-- `d.get(k)` on the association-list model. -/
def dictLookup : List (κ × ν) → κ → Option ν
  | [], _ => none
  | (k', v') :: rest, k => if k' = k then some v' else dictLookup rest k

/-- One `defaultdict(list)` append `g[k].append(v)`: extend the bucket of `k`
in place, creating it (at the end, in key-first-occurrence order) if absent. -/
def bucketAppend : List (κ × List ν) → κ → ν → List (κ × List ν)
  | [], k, v => [(k, [v])]
  | (k', b) :: rest, k, v =>
      if k' = k then (k', b ++ [v]) :: rest else (k', b) :: bucketAppend rest k v

/-- Reading a `defaultdict(list)`: the bucket of `k`, `[]` if absent. -/
def bucketOf (g : List (κ × List ν)) (k : κ) : List ν :=
  (dictLookup g k).getD []

end PyDict

/-- The deduplication key `(d["emp_code"], d["datetime"], d["device"])`.
Aware datetimes hash and compare by instant, so the datetime component
contributes `utc`. -/
def dictKey (r : PunchRecord) : String × Int × String :=
  (r.emp_code, r.datetime.utc, r.device)

/-- `remove_duplicates` of `process_attendance.py`:
`unique = {(d["emp_code"], d["datetime"], d["device"]): d for d in data}`
then `list(unique.values())`. -/
def remove_duplicates (data : List PunchRecord) : List PunchRecord :=
  (data.foldl (fun d r => dictInsert d (dictKey r) r) []).map Prod.snd

/-- The grouping key `(record["emp_code"], record["datetime"].date())`. -/
def groupKey (r : PunchRecord) : String × Int :=
  (r.emp_code, r.datetime.dateOf)

/-- `group_by_employee_and_date` of `process_attendance.py`: a
`defaultdict(list)` filled by appending each record to its key's bucket. -/
def group_by_employee_and_date (data : List PunchRecord) :
    List ((String × Int) × List PunchRecord) :=
  data.foldl (fun g r => bucketAppend g (groupKey r) r) []

/-- `f"{n:02}"` for a nonnegative Python int: zero-pad to (at least) width 2. -/
def pad2 (n : Nat) : String :=
  if n < 10 then "0" ++ toString n else toString n

/-- `dt.strftime("%H:%M")` from the local time of day in seconds. -/
def fmtHM (tod : Int) : String :=
  pad2 (tod.toNat / 3600) ++ ":" ++ pad2 (tod.toNat % 3600 / 60)

/-- `calculate_working_hours` of `process_attendance.py` (identical in
`process_attendance2/3/4.py`): for more than one punch, the punch-to-punch
duration clamped to ≥ 0 seconds and formatted `HH:MM`; otherwise `"00:00"`.
Subtraction of aware datetimes is subtraction of instants. -/
def calculate_working_hours (first_punch last_punch : PyDatetime)
    (total_punches : Nat) : String :=
  if total_punches > 1 then
    let totalSeconds : Int := max 0 (last_punch.utc - first_punch.utc)
    let hours := totalSeconds.toNat / 3600
    let minutes := totalSeconds.toNat % 3600 / 60
    pad2 hours ++ ":" ++ pad2 minutes
  else "00:00"

/-- `check_attendance_flags` of `process_attendance.py`: `"Yes"`/`"No"` for
late entry (first punch's local time strictly after 09:30) and early exit
(last punch's local time strictly before 17:00). -/
def check_attendance_flags (first_punch last_punch : PyDatetime) : String × String :=
  ((if first_punch.timeOfDay > LATE_ENTRY_LIMIT then "Yes" else "No"),
   (if last_punch.timeOfDay < EARLY_EXIT_LIMIT then "Yes" else "No"))

/-- One record of the per-date JSON output of `process_daily_records`
(`process_attendance1.py` additionally carries a constant `shift_period`
display string, omitted here as it plays no role in any claim). -/
structure DailySummary where
  emp_code : String
  first_punch : String
  last_punch : String
  total_punches : Nat
  working_hours : String
  late_entry : Nat
  early_exit : Nat
deriving DecidableEq, Repr

/-- Comparison used to sort punches inside a group
(`records.sort(key=lambda r: r["datetime"])`): by instant. -/
def dtLe (a b : PunchRecord) : Prop := a.datetime.utc ≤ b.datetime.utc

instance : DecidableRel dtLe := fun a b => by unfold dtLe; infer_instance

/-- `process_daily_records` of `process_attendance.py` (the `final_output`
part; the parallel `excel_data` list is unclaimed and omitted): per group,
sort punches by datetime (Python's stable sort, modelled by a stable
insertion sort), take first and last, compute the summary and append it to
the `final_output[str(date_)]` bucket.  Dates are kept as day numbers: for
`datetime.date` values, ISO-string order coincides with day-number order
(years are zero-padded to four digits).  An empty group (unreachable: the
grouper only creates a bucket when appending a record) is skipped, where
Python would raise `IndexError` on `records[0]`. -/
def process_daily_records (grouped : List ((String × Int) × List PunchRecord)) :
    List (Int × List DailySummary) :=
  grouped.foldl (fun out kb =>
    match List.insertionSort dtLe kb.2 with
    | [] => out
    | first :: rest =>
      let records := first :: rest
      let last := records.getLast (List.cons_ne_nil first rest)
      let total_punches := records.length
      let working_hours := calculate_working_hours first.datetime last.datetime total_punches
      let flags := check_attendance_flags first.datetime last.datetime
      let late_flag : Nat := if flags.1 = "Yes" then 1 else 0
      let early_flag : Nat := if flags.2 = "Yes" then 1 else 0
      bucketAppend out kb.1.2
        { emp_code := kb.1.1,
          first_punch := fmtHM first.datetime.timeOfDay,
          last_punch := fmtHM last.datetime.timeOfDay,
          total_punches := total_punches,
          working_hours := working_hours,
          late_entry := late_flag,
          early_exit := early_flag }) []

/-- Comparison used to sort the summaries of one date
(`sorted(records, key=lambda r: r["emp_code"])`): by employee code. -/
def empLe (a b : DailySummary) : Prop := a.emp_code ≤ b.emp_code

instance : DecidableRel empLe := fun a b => by unfold empLe; infer_instance

/-- Comparison used by `sorted(final_output.items())` in
`process_attendance1.py`: tuples compare by first component first, and the
date keys of a dict are pairwise distinct, so the comparison is by date key. -/
def dateKeyLe (a b : Int × List DailySummary) : Prop := a.1 ≤ b.1

instance : DecidableRel dateKeyLe := fun a b => by unfold dateKeyLe; infer_instance

/-- The final sorting step of `process_attendance.py` (line 195):
`{date: sorted(records, key=lambda r: r["emp_code"]) for date, records in
final_json.items()}` — each date's records are sorted by employee code, but
the dates themselves stay in dict insertion order. -/
def finalSortPA (table : List (Int × List DailySummary)) :
    List (Int × List DailySummary) :=
  table.map (fun db => (db.1, List.insertionSort empLe db.2))

/-- Step 5 of `process_attendance1.py` (lines 113-117): sort the dates, and
each date's records by employee code. -/
def sortedOutputPA1 (table : List (Int × List DailySummary)) :
    List (Int × List DailySummary) :=
  (List.insertionSort dateKeyLe table).map (fun db => (db.1, List.insertionSort empLe db.2))

/-! ### Basic lemmas -/

lemma missingColumnsMsg_ne_tooManyColumnsMsg (n : Nat) (line : String) :
    missingColumnsMsg n line ≠ tooManyColumnsMsg n line := by
  intro h
  have hlen := congrArg String.length h
  have e1 : ("Line " : String).length = 5 := rfl
  have e2 : (": Missing columns → " : String).length = 20 := rfl
  have e3 : (": Too many columns → " : String).length = 21 := rfl
  simp only [missingColumnsMsg, tooManyColumnsMsg, String.length_append, e1, e2, e3] at hlen
  omega

/-- `findTimestampIdx` only selects tokens satisfying the digit heuristic. -/
lemma findTimestampIdx_spec :
    ∀ (parts : List String) (i : Nat), findTimestampIdx parts = some i →
      pyStrIsDigit (parts.getD i "") = true ∧ 6 < (parts.getD i "").length := by
  intro parts
  induction parts with
  | nil => intro i h; simp [findTimestampIdx] at h
  | cons p rest ih =>
      intro i h
      unfold findTimestampIdx at h
      by_cases hp : (pyStrIsDigit p && decide (p.length > 6)) = true
      · rw [if_pos hp] at h
        obtain rfl : i = 0 := by simpa using h.symm
        simp only [List.getD_cons_zero]
        simpa using hp
      · rw [if_neg hp] at h
        cases hrest : findTimestampIdx rest with
        | none => rw [hrest] at h; simp at h
        | some j =>
            rw [hrest] at h
            obtain rfl : i = j + 1 := by simpa using h.symm
            simpa using ih j hrest

/-- C1: for every non-empty input line, the loop body of
`read_and_parse_data` appends exactly one element to exactly one of the
valid-data list and the error list — one `PunchRecord` or one error, never
both, never neither. -/
theorem C1_line_parse_exactly_one (data : List PunchRecord) (errors : List String)
    (n : Nat) (line : String) (h : line ≠ "") :
    (∃ r, processLine (data, errors) n line = (data ++ [r], errors)) ∨
    (∃ e, processLine (data, errors) n line = (data, errors ++ [e])) := by
  unfold processLine
  cases parseLine n line with
  | inl r => exact Or.inl ⟨r, rfl⟩
  | inr e => exact Or.inr ⟨e, rfl⟩

/-- Witness for C1 at the spec's example line. -/
theorem C1_line_parse_exactly_one_witness :
    ("E001 John Doe 1700000000 DeviceA" ≠ "") ∧
    ((∃ r, processLine ([], []) 1 "E001 John Doe 1700000000 DeviceA" = ([] ++ [r], [])) ∨
     (∃ e, processLine ([], []) 1 "E001 John Doe 1700000000 DeviceA" = ([], [] ++ [e]))) :=
  ⟨by decide, C1_line_parse_exactly_one [] [] 1 "E001 John Doe 1700000000 DeviceA" (by decide)⟩

/-- C3: `working_hours` is `"00:00"` when the group has a single punch, and
otherwise the last-minus-first difference clamped to at least 0 seconds,
formatted as zero-padded `HH:MM`; for first punch 09:00 and last punch 17:45
(local, UTC+6) the result is `"08:45"`. -/
theorem C3_working_hours (first_punch last_punch : PyDatetime) (total_punches : Nat) :
    (total_punches = 1 →
      calculate_working_hours first_punch last_punch total_punches = "00:00") ∧
    (1 < total_punches →
      calculate_working_hours first_punch last_punch total_punches =
        pad2 ((max 0 (last_punch.utc - first_punch.utc)).toNat / 3600) ++ ":" ++
        pad2 ((max 0 (last_punch.utc - first_punch.utc)).toNat % 3600 / 60)) ∧
    calculate_working_hours ⟨10800, 21600⟩ ⟨42300, 21600⟩ 2 = "08:45" := by
  refine ⟨?_, ?_, by decide⟩
  · intro h1
    simp [calculate_working_hours, h1]
  · intro hgt
    unfold calculate_working_hours
    rw [if_pos hgt]

/-- Witness for C3: both branches at concrete inputs. -/
theorem C3_working_hours_witness :
    calculate_working_hours ⟨10800, 21600⟩ ⟨42300, 21600⟩ 1 = "00:00" ∧
    calculate_working_hours ⟨10800, 21600⟩ ⟨42300, 21600⟩ 2 =
      pad2 ((max 0 ((42300 : Int) - 10800)).toNat / 3600) ++ ":" ++
      pad2 ((max 0 ((42300 : Int) - 10800)).toNat % 3600 / 60) :=
  ⟨(C3_working_hours ⟨10800, 21600⟩ ⟨42300, 21600⟩ 1).1 rfl,
   (C3_working_hours ⟨10800, 21600⟩ ⟨42300, 21600⟩ 2).2.1 (by decide)⟩

/-- C4: `late_entry` is `"Yes"` iff the first punch's local time of day is
strictly after 09:30 and `early_exit` is `"Yes"` iff the last punch's local
time of day is strictly before 17:00; a first punch at exactly 09:30 local
gives `"No"`, one at 09:31 gives `"Yes"`. -/
theorem C4_flags (first_punch last_punch : PyDatetime) :
    ((check_attendance_flags first_punch last_punch).1 = "Yes" ↔
      first_punch.timeOfDay > LATE_ENTRY_LIMIT) ∧
    ((check_attendance_flags first_punch last_punch).2 = "Yes" ↔
      last_punch.timeOfDay < EARLY_EXIT_LIMIT) ∧
    (check_attendance_flags ⟨12600, 21600⟩ last_punch).1 = "No" ∧
    (check_attendance_flags ⟨12660, 21600⟩ last_punch).1 = "Yes" := by
  refine ⟨?_, ?_, ?_, ?_⟩
  · by_cases h : first_punch.timeOfDay > LATE_ENTRY_LIMIT <;>
      simp [check_attendance_flags, h]
  · by_cases h : last_punch.timeOfDay < EARLY_EXIT_LIMIT <;>
      simp [check_attendance_flags, h]
  · have : (⟨12600, 21600⟩ : PyDatetime).timeOfDay = 34200 := by decide
    simp [check_attendance_flags, this, LATE_ENTRY_LIMIT]
  · have : (⟨12660, 21600⟩ : PyDatetime).timeOfDay = 34260 := by decide
    simp [check_attendance_flags, this, LATE_ENTRY_LIMIT]

/-- Witness for C4 at concrete punches (09:31 and 16:00 local). -/
theorem C4_flags_witness :
    ((check_attendance_flags ⟨12660, 21600⟩ ⟨36000, 21600⟩).1 = "Yes" ↔
      (⟨12660, 21600⟩ : PyDatetime).timeOfDay > LATE_ENTRY_LIMIT) ∧
    ((check_attendance_flags ⟨12660, 21600⟩ ⟨36000, 21600⟩).2 = "Yes" ↔
      (⟨36000, 21600⟩ : PyDatetime).timeOfDay < EARLY_EXIT_LIMIT) ∧
    (check_attendance_flags ⟨12600, 21600⟩ ⟨36000, 21600⟩).1 = "No" ∧
    (check_attendance_flags ⟨12660, 21600⟩ ⟨36000, 21600⟩).1 = "Yes" :=
  C4_flags ⟨12660, 21600⟩ ⟨36000, 21600⟩

/-- C9 counterexample: the `FileNotFound` diagnostic is appended to the very
error list that receives the per-line `ParseError`s (line 60 of
`process_attendance.py` appends to `errors`, the list returned as the
per-line error component), refuting "kept distinct from per-line ParseErrors
(not appended to the per-line error list)". -/
theorem C9_diagnostic_in_error_list_cex :
    fileNotFoundMsg "missing.log" ∈
      (read_and_parse_data false "missing.log" ["E001 John Doe 1700000000 DeviceA"]).2 := by
  simp [read_and_parse_data]

/-- C9 amended: when the input file does not exist, `read_and_parse_data`
returns an empty valid-data list together with the single `FileNotFound`
diagnostic as the sole element of the (shared) error list, no line is
parsed, and no exception propagates (the function is total). -/
theorem C9_file_not_found (path : String) (lines : List String) :
    read_and_parse_data false path lines = ([], [fileNotFoundMsg path]) := rfl

/-- C5 counterexample: `convert_to_bst` of `process_attendance.py` resolves
the named zone `Asia/Dhaka`; at epoch 1250000000 (11 Aug 2009, inside the
Bangladeshi DST period) its output is the instant at offset +07:00, not the
UTC conversion plus exactly 6 hours. -/
theorem C5_named_zone_cex :
    (convert_to_bst 1250000000).map PyDatetime.localSeconds = some (1250000000 + 25200) ∧
    (convert_to_bst 1250000000).map PyDatetime.localSeconds ≠ some (1250000000 + 21600) ∧
    (convert_to_bst 1250000000).map PyDatetime.offset ≠ some 21600 := by
  refine ⟨by decide, by decide, by decide⟩

/-- C5 amended: the fixed-offset normalizers `convert_to_bdt`
(`process_attendance1/2/3.py`) and `convert_to_bst` of
`process_attendance4.py` always yield the input instant expressed at the
fixed UTC+6 offset (the UTC epoch conversion plus exactly 6 hours); the
`convert_to_bst` of `process_attendance.py` instead uses the named zone
Asia/Dhaka, agreeing with UTC+6 except during the 2009 DST period, where its
offset is +07:00.  All three are pure functions of the timestamp. -/
theorem C5_fixed_offset_normalizers (ts : Int) :
    (∀ dt, convert_to_bdt ts = some dt →
      dt.localSeconds = ts + 21600 ∧ dt.offset = 21600) ∧
    (∀ dt, convert_to_bst_v4 ts = some dt →
      dt.localSeconds = ts + 21600 ∧ dt.offset = 21600) ∧
    (∀ dt, convert_to_bst ts = some dt →
      dt.localSeconds = ts + dhakaOffset ts ∧
      (dt.offset = 21600 ∨
        (1245430800 ≤ ts ∧ ts < 1262278800 ∧ dt.offset = 25200))) := by
  refine ⟨?_, ?_, ?_⟩
  · intro dt h
    unfold convert_to_bdt pyFromTimestamp at h
    split at h
    · cases h; simp [PyDatetime.localSeconds]
    · cases h
  · intro dt h
    unfold convert_to_bst_v4 pyFromTimestamp at h
    split at h <;> split at h <;> simp_all [PyDatetime.localSeconds]
    cases h
    exact ⟨rfl, rfl⟩
  · intro dt h
    unfold convert_to_bst pyFromTimestamp at h
    split at h
    · cases h
      refine ⟨rfl, ?_⟩
      unfold dhakaOffset
      split
      · next hin => exact Or.inr ⟨hin.1, hin.2, rfl⟩
      · exact Or.inl rfl
    · cases h

/-- Witness for C5 (amended) at epoch 1700000000. -/
theorem C5_fixed_offset_normalizers_witness :
    ((⟨1700000000, 21600⟩ : PyDatetime).localSeconds = 1700000000 + 21600 ∧
      (⟨1700000000, 21600⟩ : PyDatetime).offset = 21600) ∧
    ((⟨1700000000, 21600⟩ : PyDatetime).localSeconds = 1700000000 + dhakaOffset 1700000000 ∧
      ((⟨1700000000, 21600⟩ : PyDatetime).offset = 21600 ∨
        (1245430800 ≤ (1700000000 : Int) ∧ (1700000000 : Int) < 1262278800 ∧
          (⟨1700000000, 21600⟩ : PyDatetime).offset = 25200))) :=
  ⟨(C5_fixed_offset_normalizers 1700000000).1 ⟨1700000000, 21600⟩ (by decide),
   (C5_fixed_offset_normalizers 1700000000).2.2 ⟨1700000000, 21600⟩ (by decide)⟩

/-- C10 counterexample: the token `"²²²²²²²"` (seven superscript-two
characters) is selected by the heuristic — `str.isdigit` is true of it and
its length exceeds 6 — yet Python's `int` rejects it, so the
`Invalid timestamp` branch is reached through integer-parse failure. -/
theorem C10_superscript_cex :
    findTimestampIdx ["E001", "John", "Doe", "²²²²²²²"] = some 3 ∧
    pyStrIsDigit "²²²²²²²" = true ∧
    pyInt? "²²²²²²²" = none ∧
    parseLine 1 "E001 John Doe ²²²²²²²" =
      Sum.inr (invalidTimestampMsg 1 "²²²²²²²" (intValueErrorText "²²²²²²²")) := by
  refine ⟨by decide, by decide, by decide, by decide⟩

/-- C10 amended: whenever the timestamp-detection heuristic selects a token
that consists solely of decimal (ASCII) digit characters, converting it to an
integer succeeds; integer-parse failure is only possible for selected tokens
containing non-decimal digit characters (which `str.isdigit` also accepts). -/
theorem C10_decimal_token_parses (parts : List String) (n : Nat) (line : String)
    (ts dev : String)
    (hsel : parse_timestamp parts n line = (some ts, some dev, none))
    (hdec : ts.toList.all Char.isDigit = true) :
    ∃ k, pyInt? ts = some k := by
  unfold parse_timestamp at hsel
  cases hidx : findTimestampIdx parts with
  | none => rw [hidx] at hsel; simp at hsel
  | some i =>
      rw [hidx] at hsel
      have hts : ts = parts.getD i "" := by
        have := congrArg (fun t => t.1) hsel
        simpa using this.symm
      have hspec := findTimestampIdx_spec parts i hidx
      have hne : ts ≠ "" := by
        rw [hts]
        have := hspec.1
        unfold pyStrIsDigit at this
        intro hcon
        rw [hcon] at this
        simp at this
      have hall : (decide (ts ≠ "") && ts.toList.all Char.isDigit) = true := by
        rw [Bool.and_eq_true]
        exact ⟨by simp [hne], hdec⟩
      unfold pyInt?
      rw [if_pos hall]
      exact ⟨_, rfl⟩

/-- Witness for C10 (amended) on a genuine decimal timestamp token. -/
theorem C10_decimal_token_parses_witness :
    ∃ k, pyInt? "1700000000" = some k :=
  C10_decimal_token_parses ["E001", "John", "Doe", "1700000000", "DeviceA"] 1
    "E001 John Doe 1700000000 DeviceA" "1700000000" "DeviceA" (by decide) (by decide)

/-- C2 counterexample: the row validation of `process_attendance1.py` (also
`process_attendance2/3.py`) classifies a line of exactly 4 tokens as missing
columns, although it does not split into fewer than 4 tokens — its threshold
is 5, not 4. -/
theorem C2_four_token_cex :
    validate_row_v1 ["E001", "John", "Doe", "1700000000"] 1 "E001 John Doe 1700000000" =
      some (missingColumnsMsg 1 "E001 John Doe 1700000000") ∧
    ¬ (["E001", "John", "Doe", "1700000000"].length < 4) := by
  refine ⟨by decide, by decide⟩

/-- C2 amended: `validate_row` of `process_attendance.py` classifies a line
as missing columns iff it splits into fewer than 4 whitespace tokens and as
too many columns iff more than 6 tokens, the fewer-than-4 check first; the
row validation of `process_attendance1/2/3.py` instead uses fewer than 5 for
missing columns (same too-many bound).  The line `"E002 OnlyThreeTokens"`
yields one missing-columns error and no `PunchRecord`. -/
theorem C2_validate_thresholds :
    (∀ (parts : List String) (n : Nat) (line : String),
      (validate_row parts n line = some (missingColumnsMsg n line) ↔ parts.length < 4) ∧
      (validate_row parts n line = some (tooManyColumnsMsg n line) ↔ 6 < parts.length) ∧
      (validate_row_v1 parts n line = some (missingColumnsMsg n line) ↔ parts.length < 5) ∧
      (validate_row_v1 parts n line = some (tooManyColumnsMsg n line) ↔ 6 < parts.length)) ∧
    parseLine 1 "E002 OnlyThreeTokens" =
      Sum.inr (missingColumnsMsg 1 "E002 OnlyThreeTokens") := by
  constructor
  · intro parts n line
    have hne := missingColumnsMsg_ne_tooManyColumnsMsg n line
    refine ⟨?_, ?_, ?_, ?_⟩
    · unfold validate_row
      by_cases h4 : parts.length < 4
      · rw [if_pos h4]; simp [h4]
      · rw [if_neg h4]
        by_cases h6 : parts.length > 6
        · rw [if_pos h6]
          simp only [Option.some.injEq]
          exact ⟨fun hmsg => absurd hmsg.symm hne, fun hlt => absurd hlt h4⟩
        · rw [if_neg h6]; simp; omega
    · unfold validate_row
      by_cases h4 : parts.length < 4
      · rw [if_pos h4]
        simp only [Option.some.injEq]
        exact ⟨fun hmsg => absurd hmsg hne, fun hgt => absurd hgt (by omega)⟩
      · rw [if_neg h4]
        by_cases h6 : parts.length > 6
        · rw [if_pos h6]; simp [h6]
        · rw [if_neg h6]; simp; omega
    · unfold validate_row_v1
      by_cases h5 : parts.length < 5
      · rw [if_pos h5]; simp [h5]
      · rw [if_neg h5]
        by_cases h6 : parts.length > 6
        · rw [if_pos h6]
          simp only [Option.some.injEq]
          exact ⟨fun hmsg => absurd hmsg.symm hne, fun hlt => absurd hlt h5⟩
        · rw [if_neg h6]; simp; omega
    · unfold validate_row_v1
      by_cases h5 : parts.length < 5
      · rw [if_pos h5]
        simp only [Option.some.injEq]
        exact ⟨fun hmsg => absurd hmsg hne, fun hgt => absurd hgt (by omega)⟩
      · rw [if_neg h5]
        by_cases h6 : parts.length > 6
        · rw [if_pos h6]; simp [h6]
        · rw [if_neg h6]; simp; omega
  · decide

/-- Witness for C2 (amended) at a 4-token and a 7-token split. -/
theorem C2_validate_thresholds_witness :
    (validate_row ["a", "b", "c", "d"] 2 "a b c d" = some (missingColumnsMsg 2 "a b c d") ↔
      (["a", "b", "c", "d"].length < 4)) ∧
    (validate_row_v1 ["a", "b", "c", "d"] 2 "a b c d" = some (missingColumnsMsg 2 "a b c d") ↔
      (["a", "b", "c", "d"].length < 5)) :=
  ⟨(C2_validate_thresholds.1 ["a", "b", "c", "d"] 2 "a b c d").1,
   (C2_validate_thresholds.1 ["a", "b", "c", "d"] 2 "a b c d").2.2.1⟩

/-! ### Dictionary lemmas for deduplication (C6) -/

section DictLemmas

variable {κ : Type} {ν : Type} [DecidableEq κ]

lemma dictLookup_dictInsert (d : List (κ × ν)) (k : κ) (v : ν) (q : κ) :
    dictLookup (dictInsert d k v) q = if q = k then some v else dictLookup d q := by
  induction d with
  | nil =>
      by_cases h : q = k
      · subst h
        simp [dictInsert, dictLookup]
      · simp [dictInsert, dictLookup, h, Ne.symm h]
  | cons hd tl ih =>
      obtain ⟨k0, v0⟩ := hd
      by_cases h0 : k0 = k
      · subst h0
        by_cases hq : q = k0
        · subst hq
          simp [dictInsert, dictLookup]
        · simp [dictInsert, dictLookup, hq, Ne.symm hq]
      · by_cases hq : k0 = q
        · subst hq
          simp [dictInsert, dictLookup, h0, Ne.symm h0]
        · by_cases hqk : q = k
          · subst hqk
            simp [dictInsert, dictLookup, h0, Ne.symm h0, hq, ih]
          · simp [dictInsert, dictLookup, h0, hq, Ne.symm hq, hqk, ih]

lemma mem_keys_dictInsert (d : List (κ × ν)) (k : κ) (v : ν) (x : κ) :
    x ∈ (dictInsert d k v).map Prod.fst ↔ x ∈ d.map Prod.fst ∨ x = k := by
  induction d with
  | nil => simp [dictInsert]
  | cons hd tl ih =>
      obtain ⟨k0, v0⟩ := hd
      by_cases h0 : k0 = k
      · subst h0
        simp [dictInsert]
        tauto

      · simp [dictInsert, h0, ih]
        tauto

lemma keys_nodup_dictInsert (d : List (κ × ν)) (k : κ) (v : ν)
    (h : (d.map Prod.fst).Nodup) : ((dictInsert d k v).map Prod.fst).Nodup := by
  induction d with
  | nil => simp [dictInsert]
  | cons hd tl ih =>
      obtain ⟨k0, v0⟩ := hd
      simp only [List.map_cons, List.nodup_cons] at h
      by_cases h0 : k0 = k
      · subst h0
        have hrw : dictInsert ((k0, v0) :: tl) k0 v = (k0, v) :: tl := by
          simp [dictInsert]
        rw [hrw, List.map_cons, List.nodup_cons]
        exact h
      · simp only [dictInsert, if_neg h0, List.map_cons, List.nodup_cons]
        refine ⟨?_, ih h.2⟩
        rw [mem_keys_dictInsert]
        rintro (hmem | rfl)
        · exact h.1 hmem
        · exact h0 rfl

/-- Every entry of the dict built by `remove_duplicates` stores a record
under that record's own key. -/
def dictWF (d : List ((String × Int × String) × PunchRecord)) : Prop :=
  ∀ e ∈ d, dictKey e.2 = e.1

lemma dictWF_dictInsert (d : List ((String × Int × String) × PunchRecord))
    (r : PunchRecord) (h : dictWF d) : dictWF (dictInsert d (dictKey r) r) := by
  induction d with
  | nil =>
      intro e he
      simp [dictInsert] at he
      subst he
      rfl
  | cons hd tl ih =>
      obtain ⟨k0, v0⟩ := hd
      by_cases h0 : k0 = dictKey r
      · subst h0
        intro e he
        simp only [dictInsert, if_pos rfl] at he
        rcases List.mem_cons.mp he with rfl | hmem
        · rfl
        · exact h e (List.mem_cons_of_mem _ hmem)
      · intro e he
        simp only [dictInsert, if_neg h0] at he
        rcases List.mem_cons.mp he with rfl | hmem
        · exact h (k0, v0) (List.mem_cons_self _ _)
        · exact ih (fun x hx => h x (List.mem_cons_of_mem _ hx)) e hmem

/-- The dict comprehension of `remove_duplicates`, as a left fold of
insertions starting from the empty dict. -/
def buildDict (data : List PunchRecord) : List ((String × Int × String) × PunchRecord) :=
  data.foldl (fun d r => dictInsert d (dictKey r) r) []

lemma remove_duplicates_eq_buildDict (data : List PunchRecord) :
    remove_duplicates data = (buildDict data).map Prod.snd := rfl

/-- The last record of the list whose dedup key is `k`, if any — the
"last write" for that key. -/
def lastMatch? (data : List PunchRecord) (k : String × Int × String) : Option PunchRecord :=
  match data with
  | [] => none
  | r :: rest =>
      match lastMatch? rest k with
      | some q => some q
      | none => if dictKey r = k then some r else none

lemma dictLookup_foldl (data : List PunchRecord)
    (init : List ((String × Int × String) × PunchRecord)) (k : String × Int × String) :
    dictLookup (data.foldl (fun d r => dictInsert d (dictKey r) r) init) k =
      match lastMatch? data k with
      | some q => some q
      | none => dictLookup init k := by
  induction data generalizing init with
  | nil => rfl
  | cons r rest ih =>
      simp only [List.foldl_cons]
      rw [ih]
      cases hrest : lastMatch? rest k with
      | some q => simp [lastMatch?, hrest]
      | none =>
          simp only [lastMatch?, hrest]
          rw [dictLookup_dictInsert]
          by_cases hk : dictKey r = k
          · rw [if_pos hk.symm, if_pos hk]
          · rw [if_neg (fun hh => hk (Eq.symm hh)), if_neg hk]

lemma dictLookup_buildDict (data : List PunchRecord) (k : String × Int × String) :
    dictLookup (buildDict data) k = lastMatch? data k := by
  rw [buildDict, dictLookup_foldl]
  cases h : lastMatch? data k <;> simp [dictLookup]

lemma dictWF_buildDict (data : List PunchRecord) : dictWF (buildDict data) := by
  suffices hgen : ∀ init, dictWF init →
      dictWF (data.foldl (fun d r => dictInsert d (dictKey r) r) init) by
    exact hgen [] (by intro e he; simp at he)
  induction data with
  | nil => intro init h; exact h
  | cons r rest ih =>
      intro init h
      simp only [List.foldl_cons]
      exact ih _ (dictWF_dictInsert _ _ h)

lemma keys_nodup_buildDict (data : List PunchRecord) :
    ((buildDict data).map Prod.fst).Nodup := by
  suffices hgen : ∀ (init : List ((String × Int × String) × PunchRecord)),
      (init.map Prod.fst).Nodup →
      (((data.foldl (fun d r => dictInsert d (dictKey r) r) init)).map Prod.fst).Nodup by
    exact hgen [] (by simp)
  induction data with
  | nil => intro init h; exact h
  | cons r rest ih =>
      intro init h
      simp only [List.foldl_cons]
      exact ih _ (keys_nodup_dictInsert _ _ _ h)

lemma dictLookup_mem_keys (d : List (κ × ν)) (k : κ) (v : ν)
    (h : dictLookup d k = some v) : k ∈ d.map Prod.fst := by
  induction d with
  | nil => simp [dictLookup] at h
  | cons hd tl ih =>
      obtain ⟨k0, v0⟩ := hd
      by_cases h0 : k0 = k
      · simp [h0]
      · simp only [dictLookup, if_neg h0] at h
        simp [ih h]

lemma dictLookup_mem_values (d : List (κ × ν)) (k : κ) (v : ν)
    (h : dictLookup d k = some v) : v ∈ d.map Prod.snd := by
  induction d with
  | nil => simp [dictLookup] at h
  | cons hd tl ih =>
      obtain ⟨k0, v0⟩ := hd
      by_cases h0 : k0 = k
      · simp only [dictLookup, if_pos h0, Option.some.injEq] at h
        subst h
        simp
      · simp only [dictLookup, if_neg h0] at h
        simp [ih h]

lemma lastMatch?_isSome (data : List PunchRecord) (k : String × Int × String)
    (h : ∃ r ∈ data, dictKey r = k) : ∃ q, lastMatch? data k = some q := by
  induction data with
  | nil => simp at h
  | cons r rest ih =>
      cases hrest : lastMatch? rest k with
      | some q => exact ⟨q, by simp [lastMatch?, hrest]⟩
      | none =>
          obtain ⟨r0, hr0, hk0⟩ := h
          rcases List.mem_cons.mp hr0 with rfl | hmem
          · exact ⟨r0, by simp [lastMatch?, hrest, hk0]⟩
          · obtain ⟨q, hq⟩ := ih ⟨r0, hmem, hk0⟩
            rw [hq] at hrest
            cases hrest

/-- Count of values with key `k` is zero when `k` is not among the keys. -/
lemma countP_values_zero (d : List ((String × Int × String) × PunchRecord))
    (k : String × Int × String) (hwf : dictWF d) (hk : k ∉ d.map Prod.fst) :
    (d.map Prod.snd).countP (fun x => decide (dictKey x = k)) = 0 := by
  induction d with
  | nil => simp
  | cons hd tl ih =>
      obtain ⟨k0, v0⟩ := hd
      simp only [List.map_cons, List.mem_cons, not_or] at hk
      have hv0 : dictKey v0 = k0 := hwf (k0, v0) (List.mem_cons_self _ _)
      simp only [List.map_cons, List.countP_cons]
      have : decide (dictKey v0 = k) = false := by
        simp [hv0]
        exact fun hh => hk.1 hh.symm
      rw [this]
      simpa using ih (fun e he => hwf e (List.mem_cons_of_mem _ he)) hk.2

/-- With well-formed entries and distinct keys, exactly one stored value has
key `k` as soon as `k` is a key. -/
lemma countP_values_one (d : List ((String × Int × String) × PunchRecord))
    (k : String × Int × String) (hwf : dictWF d)
    (hnodup : (d.map Prod.fst).Nodup) (hk : k ∈ d.map Prod.fst) :
    (d.map Prod.snd).countP (fun x => decide (dictKey x = k)) = 1 := by
  induction d with
  | nil => simp at hk
  | cons hd tl ih =>
      obtain ⟨k0, v0⟩ := hd
      have hv0 : dictKey v0 = k0 := hwf (k0, v0) (List.mem_cons_self _ _)
      simp only [List.map_cons, List.nodup_cons] at hnodup
      simp only [List.map_cons, List.mem_cons] at hk
      simp only [List.map_cons, List.countP_cons]
      rcases hk with rfl | hmem
      · have hz : (tl.map Prod.snd).countP (fun x => decide (dictKey x = k)) = 0 :=
          countP_values_zero tl k (fun e he => hwf e (List.mem_cons_of_mem _ he)) hnodup.1
        rw [hz]
        simp [hv0]
      · have h1 : (tl.map Prod.snd).countP (fun x => decide (dictKey x = k)) = 1 :=
          ih (fun e he => hwf e (List.mem_cons_of_mem _ he)) hnodup.2 hmem
        rw [h1]
        have : decide (dictKey v0 = k) = false := by
          simp [hv0]
          rintro rfl
          exact hnodup.1 hmem
        rw [this]
        simp

end DictLemmas

/-- C6: among all input records sharing one dedup triple
`(employee_code, datetime, device)`, exactly one record survives
`remove_duplicates`, and the survivor is the last such record in input order
(last-write-wins); a record whose triple is unique in the input therefore
survives as itself. -/
theorem C6_dedup_exactly_one (data : List PunchRecord) (k : String × Int × String)
    (h : ∃ r ∈ data, dictKey r = k) :
    ∃ q, lastMatch? data k = some q ∧ q ∈ remove_duplicates data ∧
      (remove_duplicates data).countP (fun x => decide (dictKey x = k)) = 1 := by
  obtain ⟨q, hq⟩ := lastMatch?_isSome data k h
  refine ⟨q, hq, ?_, ?_⟩
  · rw [remove_duplicates_eq_buildDict]
    exact dictLookup_mem_values _ _ _ ((dictLookup_buildDict data k).trans hq)
  · rw [remove_duplicates_eq_buildDict]
    have hlk : dictLookup (buildDict data) k = some q :=
      (dictLookup_buildDict data k).trans hq
    exact countP_values_one _ _ (dictWF_buildDict data) (keys_nodup_buildDict data)
      (dictLookup_mem_keys _ _ _ hlk)

/-- Two records with the same dedup triple but different first names, for
exercising last-write-wins. -/
def dupFirst : PunchRecord :=
  { emp_code := "E001", first_name := "John", last_name := "Doe",
    datetime := ⟨1700000000, 21600⟩, device := "DeviceA", timestamp := 1700000000 }

/-- Same triple as `dupFirst`, later in input order. -/
def dupSecond : PunchRecord :=
  { emp_code := "E001", first_name := "Johnny", last_name := "Doe",
    datetime := ⟨1700000000, 21600⟩, device := "DeviceA", timestamp := 1700000000 }

/-- Witness for C6 on a two-element duplicate list. -/
theorem C6_dedup_exactly_one_witness :
    ∃ q, lastMatch? [dupFirst, dupSecond] (dictKey dupFirst) = some q ∧
      q ∈ remove_duplicates [dupFirst, dupSecond] ∧
      (remove_duplicates [dupFirst, dupSecond]).countP
        (fun x => decide (dictKey x = dictKey dupFirst)) = 1 :=
  C6_dedup_exactly_one [dupFirst, dupSecond] (dictKey dupFirst)
    ⟨dupFirst, List.mem_cons_self _ _, rfl⟩

/-! ### Grouping lemmas (C7) -/

section GroupLemmas

variable {κ : Type} {ν : Type} [DecidableEq κ]

lemma bucketOf_bucketAppend (g : List (κ × List ν)) (k : κ) (v : ν) (q : κ) :
    bucketOf (bucketAppend g k v) q =
      if q = k then bucketOf g k ++ [v] else bucketOf g q := by
  induction g with
  | nil =>
      by_cases h : q = k
      · subst h
        simp [bucketAppend, bucketOf, dictLookup]
      · simp [bucketAppend, bucketOf, dictLookup, h, Ne.symm h]
  | cons hd tl ih =>
      obtain ⟨k0, b0⟩ := hd
      by_cases h0 : k0 = k
      · subst h0
        by_cases hq : q = k0
        · subst hq
          simp [bucketAppend, bucketOf, dictLookup]
        · simp [bucketAppend, bucketOf, dictLookup, hq, Ne.symm hq]
      · by_cases hq : k0 = q
        · subst hq
          simp [bucketAppend, bucketOf, dictLookup, h0, Ne.symm h0]


        · by_cases hqk : q = k
          · subst hqk
            simp only [bucketAppend, if_neg h0]
            simp only [bucketOf, dictLookup, if_neg hq] at ih ⊢
            simpa using ih
          · simp only [bucketAppend, if_neg h0]
            simp only [bucketOf, dictLookup, if_neg hq] at ih ⊢
            simpa [hqk] using ih

lemma bucketOf_foldl (data : List PunchRecord)
    (init : List ((String × Int) × List PunchRecord)) (q : String × Int) :
    bucketOf (data.foldl (fun g r => bucketAppend g (groupKey r) r) init) q =
      bucketOf init q ++ data.filter (fun r => decide (groupKey r = q)) := by
  induction data generalizing init with
  | nil => simp
  | cons r rest ih =>
      simp only [List.foldl_cons]
      rw [ih, bucketOf_bucketAppend]
      by_cases hk : q = groupKey r
      · rw [if_pos hk]
        have : decide (groupKey r = q) = true := by simp [hk]
        simp only [List.filter_cons, this]
        subst hk
        simp
      · rw [if_neg hk]
        have : decide (groupKey r = q) = false := by
          simp
          exact fun hh => hk hh.symm
        simp only [List.filter_cons, this]
        simp

lemma bucketOf_group (data : List PunchRecord) (q : String × Int) :
    bucketOf (group_by_employee_and_date data) q =
      data.filter (fun r => decide (groupKey r = q)) := by
  have := bucketOf_foldl data [] q
  simpa [group_by_employee_and_date, bucketOf, dictLookup] using this

lemma mem_keys_bucketAppend (g : List (κ × List ν)) (k : κ) (v : ν) (x : κ) :
    x ∈ (bucketAppend g k v).map Prod.fst ↔ x ∈ g.map Prod.fst ∨ x = k := by
  induction g with
  | nil => simp [bucketAppend]
  | cons hd tl ih =>
      obtain ⟨k0, b0⟩ := hd
      by_cases h0 : k0 = k
      · subst h0
        simp [bucketAppend]
        tauto
      · simp [bucketAppend, h0, ih]
        tauto

lemma keys_nodup_bucketAppend (g : List (κ × List ν)) (k : κ) (v : ν)
    (h : (g.map Prod.fst).Nodup) : ((bucketAppend g k v).map Prod.fst).Nodup := by
  induction g with
  | nil => simp [bucketAppend]
  | cons hd tl ih =>
      obtain ⟨k0, b0⟩ := hd
      simp only [List.map_cons, List.nodup_cons] at h
      by_cases h0 : k0 = k
      · subst h0
        have hrw : bucketAppend ((k0, b0) :: tl) k0 v = (k0, b0 ++ [v]) :: tl := by
          simp [bucketAppend]
        rw [hrw, List.map_cons, List.nodup_cons]
        exact h
      · simp only [bucketAppend, if_neg h0, List.map_cons, List.nodup_cons]
        refine ⟨?_, ih h.2⟩
        rw [mem_keys_bucketAppend]
        rintro (hmem | rfl)
        · exact h.1 hmem
        · exact h0 rfl

lemma keys_nodup_group (data : List PunchRecord) :
    ((group_by_employee_and_date data).map Prod.fst).Nodup := by
  suffices hgen : ∀ (init : List ((String × Int) × List PunchRecord)),
      (init.map Prod.fst).Nodup →
      ((data.foldl (fun g r => bucketAppend g (groupKey r) r) init).map Prod.fst).Nodup by
    exact hgen [] (by simp)
  induction data with
  | nil => intro init h; exact h
  | cons r rest ih =>
      intro init h
      simp only [List.foldl_cons]
      exact ih _ (keys_nodup_bucketAppend _ _ _ h)

lemma mem_assoc_dictLookup (g : List (κ × ν)) (k : κ) (v : ν)
    (hnodup : (g.map Prod.fst).Nodup) (hmem : (k, v) ∈ g) :
    dictLookup g k = some v := by
  induction g with
  | nil => simp at hmem
  | cons hd tl ih =>
      obtain ⟨k0, v0⟩ := hd
      simp only [List.map_cons, List.nodup_cons] at hnodup
      rcases List.mem_cons.mp hmem with heq | htl
      · obtain ⟨rfl, rfl⟩ := Prod.mk.injEq .. ▸ heq
        · simp [dictLookup]
      · have hk0 : k0 ≠ k := by
          rintro rfl
          exact hnodup.1 (List.mem_map_of_mem Prod.fst htl)
        simp only [dictLookup, if_neg hk0]
        exact ih hnodup.2 htl

lemma join_bucketAppend (g : List (κ × List ν)) (k : κ) (v : ν) :
    ((bucketAppend g k v).map Prod.snd).flatten.Perm
      ((g.map Prod.snd).flatten ++ [v]) := by
  induction g with
  | nil => simp [bucketAppend]
  | cons hd tl ih =>
      obtain ⟨k0, b0⟩ := hd
      by_cases h0 : k0 = k
      · subst h0
        have hrw : bucketAppend ((k0, b0) :: tl) k0 v = (k0, b0 ++ [v]) :: tl := by
          simp [bucketAppend]
        rw [hrw]
        simp only [List.map_cons, List.flatten_cons]
        have h1 : (b0 ++ [v]) ++ (tl.map Prod.snd).flatten
            = b0 ++ ([v] ++ (tl.map Prod.snd).flatten) := by
          rw [List.append_assoc]
        have h2 : b0 ++ ((tl.map Prod.snd).flatten ++ [v])
            = (b0 ++ (tl.map Prod.snd).flatten) ++ [v] := by
          rw [List.append_assoc]
        rw [h1, ← h2]
        exact List.Perm.append_left b0 List.perm_append_comm
      · have hrw : bucketAppend ((k0, b0) :: tl) k v = (k0, b0) :: bucketAppend tl k v := by
          simp [bucketAppend, h0]
        rw [hrw]
        simp only [List.map_cons, List.flatten_cons]
        have h2 : b0 ++ ((tl.map Prod.snd).flatten ++ [v])
            = (b0 ++ (tl.map Prod.snd).flatten) ++ [v] := by
          rw [List.append_assoc]
        rw [← h2]
        exact List.Perm.append_left b0 ih

lemma join_group (data : List PunchRecord) :
    ((group_by_employee_and_date data).map Prod.snd).flatten.Perm data := by
  suffices hgen : ∀ (init : List ((String × Int) × List PunchRecord)),
      ((data.foldl (fun g r => bucketAppend g (groupKey r) r) init).map Prod.snd).flatten.Perm
        ((init.map Prod.snd).flatten ++ data) by
    simpa using hgen []
  induction data with
  | nil => intro init; simp
  | cons r rest ih =>
      intro init
      simp only [List.foldl_cons]
      have step1 := ih (bucketAppend init (groupKey r) r)
      have step2 : List.Perm
          (((bucketAppend init (groupKey r) r).map Prod.snd).flatten ++ rest)
          ((((init.map Prod.snd).flatten ++ [r]) ++ rest)) :=
        (join_bucketAppend init (groupKey r) r).append_right rest
      have step3 : (((init.map Prod.snd).flatten ++ [r]) ++ rest)
          = (init.map Prod.snd).flatten ++ (r :: rest) := by
        rw [List.append_assoc]; rfl
      refine step1.trans ?_
      rw [← step3]
      exact step2

end GroupLemmas

/-- C7: grouping is a partition — every record lands in the bucket keyed by
its own (employee code, local calendar date); any bucket's content is exactly
the input records with that key (so a record is in no other bucket); bucket
keys are pairwise distinct; and the concatenation of all buckets is a
permutation (multiset equality) of the deduplicated input. -/
theorem C7_grouping_partition (data : List PunchRecord) :
    (∀ r ∈ data, r ∈ bucketOf (group_by_employee_and_date data) (groupKey r)) ∧
    (∀ k b, (k, b) ∈ group_by_employee_and_date data →
      b = data.filter (fun r => decide (groupKey r = k))) ∧
    ((group_by_employee_and_date data).map Prod.fst).Nodup ∧
    ((group_by_employee_and_date data).map Prod.snd).flatten.Perm data := by
  refine ⟨?_, ?_, keys_nodup_group data, join_group data⟩
  · intro r hr
    rw [bucketOf_group]
    simp [List.mem_filter, hr]
  · intro k b hmem
    have hlk : dictLookup (group_by_employee_and_date data) k = some b :=
      mem_assoc_dictLookup _ _ _ (keys_nodup_group data) hmem
    have : bucketOf (group_by_employee_and_date data) k = b := by
      rw [bucketOf, hlk]; rfl
    rw [← this, bucketOf_group]

/-- Witness for C7 on a two-record input. -/
theorem C7_grouping_partition_witness :
    dupFirst ∈ bucketOf (group_by_employee_and_date [dupFirst, dupSecond])
      (groupKey dupFirst) :=
  (C7_grouping_partition [dupFirst, dupSecond]).1 dupFirst (List.mem_cons_self _ _)

instance : IsTotal (Int × List DailySummary) dateKeyLe :=
  ⟨fun a b => le_total a.1 b.1⟩

instance : IsTrans (Int × List DailySummary) dateKeyLe :=
  ⟨fun _ _ _ h1 h2 => le_trans h1 h2⟩

instance : IsTotal DailySummary empLe :=
  ⟨fun a b => le_total a.emp_code b.emp_code⟩

instance : IsTrans DailySummary empLe :=
  ⟨fun _ _ _ h1 h2 => le_trans h1 h2⟩

/-- A punch on local day 5 (utc 432000, local 10:00 + 6h). -/
def punchDayFive : PunchRecord :=
  { emp_code := "E001", first_name := "John", last_name := "Doe",
    datetime := ⟨432000, 21600⟩, device := "DeviceA", timestamp := 432000 }

/-- A punch on local day 0, appearing later in the input. -/
def punchDayZero : PunchRecord :=
  { emp_code := "E001", first_name := "John", last_name := "Doe",
    datetime := ⟨0, 21600⟩, device := "DeviceA", timestamp := 0 }

/-- C8 counterexample: `process_attendance.py` (line 195) sorts only the
records within each date by employee code; the dates stay in dict insertion
order.  With the day-5 punch read before the day-0 punch, the final table's
dates are `[5, 0]` — not ascending. -/
theorem C8_dates_unsorted_cex :
    ((finalSortPA (process_daily_records
        (group_by_employee_and_date [punchDayFive, punchDayZero]))).map Prod.fst)
      = [5, 0] ∧
    ¬ List.Sorted (fun a b : Int => a ≤ b) [(5 : Int), 0] := by
  constructor
  · rfl
  · intro hs
    have h5 : (5 : Int) ≤ 0 := List.rel_of_sorted_cons hs 0 (List.mem_cons_self _ _)
    omega

/-- C8 amended: the full date-then-employee sorting holds for the output of
`process_attendance1.py` (step 5): its dates are ascending and each date's
records are in ascending employee-code order.  `process_attendance.py` sorts
only within each date by employee code, leaving the dates in first-encounter
order. -/
theorem C8_sorting (table : List (Int × List DailySummary)) :
    ((sortedOutputPA1 table).map Prod.fst).Sorted (fun a b : Int => a ≤ b) ∧
    (∀ d recs, (d, recs) ∈ sortedOutputPA1 table →
      (recs.map DailySummary.emp_code).Sorted (fun a b : String => a ≤ b)) ∧
    (∀ d recs, (d, recs) ∈ finalSortPA table →
      (recs.map DailySummary.emp_code).Sorted (fun a b : String => a ≤ b)) := by
  refine ⟨?_, ?_, ?_⟩
  · have hs : List.Sorted dateKeyLe (List.insertionSort dateKeyLe table) :=
      List.sorted_insertionSort dateKeyLe table
    unfold sortedOutputPA1
    rw [List.map_map]
    have hfst : (Prod.fst ∘ fun db : Int × List DailySummary =>
        (db.1, List.insertionSort empLe db.2)) = Prod.fst := by
      funext db; rfl
    rw [hfst]
    rw [List.Sorted, List.pairwise_map]
    exact hs
  · intro d recs hmem
    unfold sortedOutputPA1 at hmem
    rw [List.mem_map] at hmem
    obtain ⟨db, _, heq⟩ := hmem
    have hrecs : recs = List.insertionSort empLe db.2 := (Prod.mk.injEq .. ▸ heq).2.symm
    subst hrecs
    rw [List.Sorted, List.pairwise_map]
    exact List.sorted_insertionSort empLe db.2
  · intro d recs hmem
    unfold finalSortPA at hmem
    rw [List.mem_map] at hmem
    obtain ⟨db, _, heq⟩ := hmem
    have hrecs : recs = List.insertionSort empLe db.2 := (Prod.mk.injEq .. ▸ heq).2.symm
    subst hrecs
    rw [List.Sorted, List.pairwise_map]
    exact List.sorted_insertionSort empLe db.2

/-- Witness for C8 (amended) on a concrete one-date table. -/
theorem C8_sorting_witness :
    ((sortedOutputPA1 [((0 : Int), ([] : List DailySummary))]).map Prod.fst).Sorted
      (fun a b : Int => a ≤ b) ∧
    ((([] : List DailySummary).map DailySummary.emp_code).Sorted
      (fun a b : String => a ≤ b)) :=
  ⟨(C8_sorting [((0 : Int), [])]).1,
   (C8_sorting [((0 : Int), [])]).2.1 0 [] (by decide)⟩

end Attendance
